import Mathlib

/-!
Verification of the menu-segmentation core and image-request helper of
`src/app.py` (functions `parse_menu_items` and `generate_food_image`).

Python strings are modelled as `List Char` (`Str`).  Python's `str.strip`
is modelled over the ASCII whitespace characters; `str.isupper` /
`str.istitle` are modelled with ASCII letters as the cased characters,
exactly following CPython's scanning algorithms restricted to ASCII.
-/

abbrev Str := List Char

/-- ASCII whitespace, as stripped by Python's `str.strip()`. -/
def isSpaceChar (c : Char) : Bool :=
  c = ' ' || c = '\t' || c = '\n' || c = '\r' || c = '\x0b' || c = '\x0c'

/-- Remove leading whitespace (left part of Python `str.strip`). -/
def lstrip (s : Str) : Str := s.dropWhile isSpaceChar

/-- Remove trailing whitespace (right part of Python `str.strip`). -/
def rstrip : Str → Str
  | [] => []
  | c :: cs =>
    match rstrip cs with
    | [] => if isSpaceChar c then [] else [c]
    | d :: ds => c :: d :: ds

/-- Python `line.strip()`. -/
def strip (s : Str) : Str := rstrip (lstrip s)

/-- Python `text.split('\n')`: split on every newline, keeping empty pieces. -/
def splitNl : Str → List Str
  | [] => [[]]
  | c :: cs =>
    if c = '\n' then [] :: splitNl cs
    else
      match splitNl cs with
      | [] => [[c]]
      | r :: rs => (c :: r) :: rs

/-- First character is a digit or a currency symbol:
`re.match(r'^[\d\$\£\€\¥]+', line)` succeeds iff the first character is in
the class (the `+` only requires one occurrence). -/
def startsNoise : Str → Bool
  | [] => false
  | c :: _ => c.isDigit || c = '$' || c = '£' || c = '€' || c = '¥'

/-- The noise filter of `parse_menu_items`:
`re.match(r'^[\d\$\£\€\¥]+', line) or len(line) < 3`. -/
def isNoise (line : Str) : Bool := startsNoise line || line.length < 3

/-- `re.search(r'\$\d+', line)`: somewhere a `'$'` is immediately followed
by a digit. -/
def hasDollarNum : Str → Bool
  | [] => false
  | c :: cs =>
    (c = '$' && (match cs with | d :: _ => d.isDigit | [] => false))
      || hasDollarNum cs

/-- Python `str.isupper` (ASCII): at least one letter, and every letter is
uppercase. -/
def pyIsUpper (s : Str) : Bool :=
  s.any Char.isAlpha && s.all fun c => !c.isAlpha || c.isUpper

/-- CPython `str.istitle` scanning loop (ASCII): first argument is whether
the previous character was cased, last result records whether any cased
character was seen. -/
def pyIsTitleAux : Bool → Bool → Str → Bool
  | _, seenCased, [] => seenCased
  | prevCased, seenCased, c :: cs =>
    if c.isUpper then
      if prevCased then false else pyIsTitleAux true true cs
    else if c.isLower then
      if prevCased then pyIsTitleAux true true cs else false
    else
      pyIsTitleAux false seenCased cs

/-- Python `str.istitle` (ASCII). -/
def pyIsTitle (s : Str) : Bool := pyIsTitleAux false false s

/-- The name-line heuristic of `parse_menu_items`:
`len(line) < 50 and (re.search(r'\$\d+', line) or line.isupper() or line.istitle())`. -/
def isNameLine (line : Str) : Bool :=
  line.length < 50 && (hasDollarNum line || pyIsUpper line || pyIsTitle line)

/-- A digit or a dot: the character class of `re.sub(r'\$[\d.]+', '', line)`. -/
def isPriceChar (c : Char) : Bool := c.isDigit || c = '.'

def headIsPrice : Str → Bool
  | [] => false
  | d :: _ => isPriceChar d

/-- Scanner for `re.sub(r'\$[\d.]+', '', line)`: the flag records whether we
are inside a price run being deleted (so further digits/dots are dropped,
maximal munch). -/
def stripPriceAux : Bool → Str → Str
  | _, [] => []
  | inRun, c :: cs =>
    if inRun && isPriceChar c then stripPriceAux true cs
    else if c = '$' && headIsPrice cs then stripPriceAux true cs
    else c :: stripPriceAux false cs

/-- `re.sub(r'\$[\d.]+', '', line)`: delete every maximal substring made of
`'$'` followed by one or more digits or dots. -/
def stripPrice (s : Str) : Str := stripPriceAux false s

/-- The sole domain record: `{'name': ..., 'description': ...}`. -/
structure MenuItem where
  name : Str
  description : Str
deriving DecidableEq, Repr

/-- The loop of `parse_menu_items`, with the two accumulators
(`current_item`, `current_description`) passed explicitly and the result
list built by recursion.  The `[]` case is the trailing flush after the
loop (which, unlike the in-loop flush, strips the description). -/
def parseAux : Str → Str → List Str → List MenuItem
  | curItem, curDesc, [] =>
    if curItem.isEmpty then [] else [⟨curItem, strip curDesc⟩]
  | curItem, curDesc, raw :: rest =>
    let line := strip raw
    if line.isEmpty then parseAux curItem curDesc rest
    else if isNoise line then parseAux curItem curDesc rest
    else if isNameLine line then
      (if curItem.isEmpty then [] else [⟨curItem, curDesc⟩])
        ++ parseAux (strip (stripPrice line)) [] rest
    else
      parseAux curItem (curDesc ++ ' ' :: line) rest

/-- `parse_menu_items(text)` from `src/app.py`. -/
def parse_menu_items (text : Str) : List MenuItem :=
  parseAux [] [] (splitNl text)

/-- Same pass, starting from the list of lines (the state after
`text.split('\n')`). -/
def parseMenuLines (lines : List Str) : List MenuItem :=
  parseAux [] [] lines

/-- A raw line that takes the name branch of the loop: non-blank after
stripping, passing the noise filter, and matching the name heuristic. -/
def isEffName (raw : Str) : Bool :=
  !(strip raw).isEmpty && !isNoise (strip raw) && isNameLine (strip raw)

/-- The value stored into `current_item` when a name line is found:
`re.sub(r'\$[\d.]+', '', line).strip()` applied to the stripped line. -/
def storedName (raw : Str) : Str := strip (stripPrice (strip raw))

/-- The prompt built by `generate_food_image`:
`f"A high-quality, appetizing photo of {dish_name}"`, then, when the
description is non-empty, `f", {description[:100]}"`, then the fixed style
suffix. -/
def buildPrompt (dish_name description : Str) : Str :=
  let prompt := "A high-quality, appetizing photo of ".toList ++ dish_name
  let prompt := if description.isEmpty then prompt
    else prompt ++ ", ".toList ++ description.take 100
  prompt ++ ", professional food photography, well-lit, restaurant quality".toList

/-- The failure taxonomy of the image requester: the external generation
call failed or produced no usable result, or the generated image resource
could not be fetched/decoded. -/
inductive GenFailure
  | GenerationError
  | DownloadError
deriving DecidableEq, Repr

/-- The body of the `try` block of `generate_food_image`, with the two
external effects passed as oracles: `genApi` is
`client.images.generate(...).data[0].url` (`none` when the call raises or
returns no usable result) and `download` is
`Image.open(BytesIO(requests.get(url).content))` (`none` when the fetch or
decode raises).  A failure of the first stage is a `GenerationError`, of
the second a `DownloadError`. -/
def generateAttempt (genApi download : Str → Option Str)
    (dish_name description : Str) : Except GenFailure Str :=
  match genApi (buildPrompt dish_name description) with
  | none => .error .GenerationError
  | some url =>
    match download url with
    | none => .error .DownloadError
    | some img => .ok img

/-- `generate_food_image` of `src/app.py`: without a client it warns and
returns `None`; otherwise the whole attempt runs inside `try`, and `except`
converts any failure into a user-visible message and the return value
`None` — no failure escapes the function. -/
def generate_food_image (client : Bool) (genApi download : Str → Option Str)
    (dish_name description : Str) : Option Str :=
  if !client then none
  else
    match generateAttempt genApi download dish_name description with
    | .error _ => none
    | .ok img => some img

/-- The bulk-generation loop: one independent `generate_food_image` call
per item, in order. -/
def generateAllImages (client : Bool) (genApi download : Str → Option Str)
    (items : List MenuItem) : List (Option Str) :=
  items.map fun item => generate_food_image client genApi download item.name item.description

-- Sanity checks on concrete inputs (the P5 example and friends).
example :
    parse_menu_items "CAESAR SALAD\nCrisp romaine, parmesan, croutons\nwith house dressing\nBEEF BURGER $15\nServed with fries".toList
      = [⟨"CAESAR SALAD".toList, " Crisp romaine, parmesan, croutons with house dressing".toList⟩,
         ⟨"BEEF BURGER".toList, "Served with fries".toList⟩] := by decide

example : parse_menu_items "GRILLED SALMON $24".toList
    = [⟨"GRILLED SALMON".toList, "".toList⟩] := by decide

example : parse_menu_items "".toList = [] := by decide

example : parse_menu_items "FISH $5 SPECIAL".toList
    = [⟨"FISH  SPECIAL".toList, "".toList⟩] := by decide

example : stripPrice "$15.50".toList = "".toList := by decide

/-! ### Basic lemmas about `strip` -/

theorem lstrip_idem (s : Str) : lstrip (lstrip s) = lstrip s := by
  induction s with
  | nil => rfl
  | cons c cs ih =>
    by_cases h : isSpaceChar c
    · simpa [lstrip, List.dropWhile_cons, h] using ih
    · simp [lstrip, List.dropWhile_cons, h]

theorem lstrip_head (s : Str) (c : Char) (cs : Str) (h : lstrip s = c :: cs) :
    isSpaceChar c = false := by
  induction s with
  | nil => simp [lstrip] at h
  | cons a as ih =>
    by_cases ha : isSpaceChar a
    · exact ih (by simpa [lstrip, List.dropWhile_cons, ha] using h)
    · rw [lstrip, List.dropWhile_cons] at h
      simp [ha] at h
      rw [← h.1]
      simpa using ha

theorem rstrip_cons (c : Char) (cs : Str) :
    rstrip (c :: cs) = match rstrip cs with
      | [] => if isSpaceChar c then [] else [c]
      | d :: ds => c :: d :: ds := rfl

theorem rstrip_head (x : Str) (c : Char) (cs : Str) (h : rstrip x = c :: cs) :
    ∃ t, x = c :: t := by
  cases x with
  | nil => simp [rstrip] at h
  | cons a as =>
    rw [rstrip_cons] at h
    cases hr : rstrip as with
    | nil =>
      rw [hr] at h
      by_cases ha : isSpaceChar a
      · simp [ha] at h
      · simp [ha] at h
        exact ⟨as, by rw [h.1]⟩
    | cons d ds =>
      rw [hr] at h
      have h' : a :: d :: ds = c :: cs := h
      exact ⟨as, by rw [(List.cons_eq_cons.mp h').1]⟩

theorem rstrip_cons_not_space (c : Char) (cs : Str) (h : isSpaceChar c = false) :
    ∃ ds, rstrip (c :: cs) = c :: ds := by
  rw [rstrip_cons]
  cases hr : rstrip cs with
  | nil => exact ⟨[], by simp [h]⟩
  | cons d ds => exact ⟨d :: ds, rfl⟩

theorem rstrip_idem (s : Str) : rstrip (rstrip s) = rstrip s := by
  induction s with
  | nil => rfl
  | cons c cs ih =>
    rw [rstrip_cons]
    cases hr : rstrip cs with
    | nil =>
      by_cases h : isSpaceChar c
      · simp [h, rstrip]
      · simp [h, rstrip]
    | cons d ds =>
      have hdd : rstrip (d :: ds) = d :: ds := by
        rw [← hr, ih, hr]
      rw [rstrip_cons, hdd]

theorem strip_head (s : Str) (c : Char) (cs : Str) (h : strip s = c :: cs) :
    isSpaceChar c = false := by
  unfold strip at h
  obtain ⟨t, ht⟩ := rstrip_head _ _ _ h
  exact lstrip_head s c t ht

theorem lstrip_strip (s : Str) : lstrip (strip s) = strip s := by
  unfold strip
  cases hl : lstrip s with
  | nil => rfl
  | cons c cs =>
    have hc : isSpaceChar c = false := lstrip_head s c cs hl
    obtain ⟨ds, hds⟩ := rstrip_cons_not_space c cs hc
    rw [hds]
    simp [lstrip, List.dropWhile_cons, hc]

theorem strip_idem (s : Str) : strip (strip s) = strip s := by
  show rstrip (lstrip (strip s)) = strip s
  rw [lstrip_strip]
  show rstrip (rstrip (lstrip s)) = strip s
  rw [rstrip_idem]
  rfl

/-! ### Unfolding and skip lemmas for the parsing loop -/

theorem parseAux_nil (cur desc : Str) :
    parseAux cur desc [] = if cur.isEmpty then [] else [⟨cur, strip desc⟩] := rfl

theorem parseAux_cons (cur desc raw : Str) (rest : List Str) :
    parseAux cur desc (raw :: rest) =
      if (strip raw).isEmpty then parseAux cur desc rest
      else if isNoise (strip raw) then parseAux cur desc rest
      else if isNameLine (strip raw) then
        (if cur.isEmpty then [] else [⟨cur, desc⟩])
          ++ parseAux (strip (stripPrice (strip raw))) [] rest
      else parseAux cur (desc ++ ' ' :: strip raw) rest := rfl

theorem parseAux_skip (cur desc raw : Str) (rest : List Str)
    (h : isNoise (strip raw) = true) :
    parseAux cur desc (raw :: rest) = parseAux cur desc rest := by
  rw [parseAux_cons]
  by_cases he : (strip raw).isEmpty = true
  · simp [he]
  · simp [he, h]

theorem stripPriceAux_cons_ne_dollar (c : Char) (cs : Str) (h : c ≠ '$') :
    stripPriceAux false (c :: cs) = c :: stripPriceAux false cs := by
  simp [stripPriceAux, h]

/-- The name stored for a line that passed the noise filter is never empty:
the line's first character is not whitespace, not a digit and not a
currency symbol, so it survives both the price deletion and the trim. -/
theorem storedName_ne_nil (raw : Str) (h1 : (strip raw).isEmpty = false)
    (h2 : isNoise (strip raw) = false) : storedName raw ≠ [] := by
  unfold storedName
  cases hl : strip raw with
  | nil => rw [hl] at h1; simp at h1
  | cons c cs =>
    have hc : isSpaceChar c = false := strip_head raw c cs hl
    rw [hl] at h2
    simp [isNoise, startsNoise] at h2
    have hd : c ≠ '$' := h2.1.1.1.1.2
    have hsp : stripPrice (c :: cs) = c :: stripPriceAux false cs :=
      stripPriceAux_cons_ne_dollar c cs hd
    rw [hsp]
    have hls : lstrip (c :: stripPriceAux false cs) = c :: stripPriceAux false cs := by
      simp [lstrip, List.dropWhile_cons, hc]
    obtain ⟨ds, hds⟩ := rstrip_cons_not_space c (stripPriceAux false cs) hc
    unfold strip
    rw [hls, hds]
    simp

/-- Loop invariant: provided the pending name is a stripped string, every
item the loop emits has a non-empty name that is its own `strip`. -/
theorem parseAux_names_good : ∀ (ls : List Str) (cur desc : Str) (item : MenuItem),
    strip cur = cur → item ∈ parseAux cur desc ls →
    item.name ≠ [] ∧ strip item.name = item.name := by
  intro ls
  induction ls with
  | nil =>
    intro cur desc item hcur hmem
    rw [parseAux_nil] at hmem
    cases hc : cur.isEmpty with
    | true => rw [hc] at hmem; simp at hmem
    | false =>
      rw [hc] at hmem
      simp at hmem
      rw [hmem]
      constructor
      · simpa using hc
      · exact hcur
  | cons raw rest ih =>
    intro cur desc item hcur hmem
    rw [parseAux_cons] at hmem
    by_cases h1 : (strip raw).isEmpty = true
    · exact ih cur desc item hcur (by simpa [h1] using hmem)
    by_cases h2 : isNoise (strip raw) = true
    · exact ih cur desc item hcur (by simpa [h1, h2] using hmem)
    by_cases h3 : isNameLine (strip raw) = true
    · rw [if_neg (by simpa using h1), if_neg (by simpa using h2),
        if_pos (by simpa using h3)] at hmem
      rcases List.mem_append.mp hmem with hleft | hright
      · cases hc : cur.isEmpty with
        | true => rw [hc] at hleft; simp at hleft
        | false =>
          rw [hc] at hleft
          simp at hleft
          rw [hleft]
          exact ⟨by simpa using hc, hcur⟩
      · exact ih _ _ item (strip_idem _) hright
    · rw [if_neg (by simpa using h1), if_neg (by simpa using h2),
        if_neg (by simpa using h3)] at hmem
      exact ih _ _ item hcur hmem

/-! ### Branch lemmas for one loop step -/

theorem parseAux_cons_blank (cur desc raw : Str) (rest : List Str)
    (h1 : (strip raw).isEmpty = true) :
    parseAux cur desc (raw :: rest) = parseAux cur desc rest := by
  rw [parseAux_cons]
  simp [h1]

theorem parseAux_cons_noise (cur desc raw : Str) (rest : List Str)
    (h1 : (strip raw).isEmpty = false) (h2 : isNoise (strip raw) = true) :
    parseAux cur desc (raw :: rest) = parseAux cur desc rest := by
  rw [parseAux_cons]
  simp [h1, h2]

theorem parseAux_cons_name (cur desc raw : Str) (rest : List Str)
    (h1 : (strip raw).isEmpty = false) (h2 : isNoise (strip raw) = false)
    (h3 : isNameLine (strip raw) = true) :
    parseAux cur desc (raw :: rest) =
      (if cur.isEmpty then [] else [⟨cur, desc⟩]) ++ parseAux (storedName raw) [] rest := by
  rw [parseAux_cons]
  simp [h1, h2, h3, storedName]

theorem parseAux_cons_desc (cur desc raw : Str) (rest : List Str)
    (h1 : (strip raw).isEmpty = false) (h2 : isNoise (strip raw) = false)
    (h3 : isNameLine (strip raw) = false) :
    parseAux cur desc (raw :: rest) = parseAux cur (desc ++ ' ' :: strip raw) rest := by
  rw [parseAux_cons]
  simp [h1, h2, h3]

theorem isEffName_of_branches (raw : Str) (h1 : (strip raw).isEmpty = false)
    (h2 : isNoise (strip raw) = false) (h3 : isNameLine (strip raw) = true) :
    isEffName raw = true := by
  simp [isEffName, h1, h2, h3]

theorem not_isEffName_blank (raw : Str) (h1 : (strip raw).isEmpty = true) :
    isEffName raw = false := by
  simp [isEffName, h1]

theorem not_isEffName_noise (raw : Str) (h2 : isNoise (strip raw) = true) :
    isEffName raw = false := by
  simp [isEffName, h2]

theorem not_isEffName_desc (raw : Str) (h3 : isNameLine (strip raw) = false) :
    isEffName raw = false := by
  simp [isEffName, h3]

/-! ### Structural lemmas: names map, noise insertion, prefix discard -/

/-- The names the loop will emit are the pending name (if any) followed by
the stored names of the name lines still to come, in encounter order. -/
theorem parseAux_map_name : ∀ (ls : List Str) (cur desc : Str),
    (parseAux cur desc ls).map MenuItem.name
      = (if cur.isEmpty then [] else [cur]) ++ (ls.filter isEffName).map storedName := by
  intro ls
  induction ls with
  | nil =>
    intro cur desc
    rw [parseAux_nil]
    cases hc : cur.isEmpty <;> simp
  | cons raw rest ih =>
    intro cur desc
    cases h1 : (strip raw).isEmpty with
    | true =>
      rw [parseAux_cons_blank cur desc raw rest h1, ih,
        List.filter_cons_of_neg (by simp [not_isEffName_blank raw h1])]
    | false =>
    cases h2 : isNoise (strip raw) with
    | true =>
      rw [parseAux_cons_noise cur desc raw rest h1 h2, ih,
        List.filter_cons_of_neg (by simp [not_isEffName_noise raw h2])]
    | false =>
    cases h3 : isNameLine (strip raw) with
    | false =>
      rw [parseAux_cons_desc cur desc raw rest h1 h2 h3, ih,
        List.filter_cons_of_neg (by simp [not_isEffName_desc raw h3])]
    | true =>
      have hne : (storedName raw).isEmpty = false := by
        have h := storedName_ne_nil raw h1 h2
        cases hsn : storedName raw with
        | nil => exact absurd hsn h
        | cons a as => simp
      rw [parseAux_cons_name cur desc raw rest h1 h2 h3, List.map_append, ih, hne,
        List.filter_cons_of_pos (by simp [isEffName_of_branches raw h1 h2 h3])]
      cases hc : cur.isEmpty <;> simp

/-- Skipped lines (blank after stripping, or caught by the noise filter)
can be inserted anywhere without changing the loop's output. -/
theorem parseAux_insert_skip (l : Str)
    (hl : isNoise (strip l) = true ∨ (strip l).isEmpty = true) :
    ∀ (pre post : List Str) (cur desc : Str),
    parseAux cur desc (pre ++ l :: post) = parseAux cur desc (pre ++ post) := by
  have hskip : ∀ (post : List Str) (cur desc : Str),
      parseAux cur desc (l :: post) = parseAux cur desc post := by
    intro post cur desc
    rcases hl with h | h
    · exact parseAux_skip cur desc l post h
    · exact parseAux_cons_blank cur desc l post h
  intro pre
  induction pre with
  | nil => intro post cur desc; exact hskip post cur desc
  | cons p pre ih =>
    intro post cur desc
    rw [List.cons_append, List.cons_append]
    cases h1 : (strip p).isEmpty with
    | true =>
      rw [parseAux_cons_blank cur desc p _ h1, parseAux_cons_blank cur desc p _ h1, ih]
    | false =>
    cases h2 : isNoise (strip p) with
    | true =>
      rw [parseAux_cons_noise cur desc p _ h1 h2, parseAux_cons_noise cur desc p _ h1 h2, ih]
    | false =>
    cases h3 : isNameLine (strip p) with
    | true =>
      rw [parseAux_cons_name cur desc p _ h1 h2 h3, parseAux_cons_name cur desc p _ h1 h2 h3, ih]
    | false =>
      rw [parseAux_cons_desc cur desc p _ h1 h2 h3, parseAux_cons_desc cur desc p _ h1 h2 h3, ih]

/-- With no pending name, the accumulated description cannot influence the
output: it is only ever flushed alongside a non-empty pending name. -/
theorem parseAux_desc_irrelevant : ∀ (ls : List Str) (d d' : Str),
    parseAux [] d ls = parseAux [] d' ls := by
  intro ls
  induction ls with
  | nil => intro d d'; rfl
  | cons raw rest ih =>
    intro d d'
    cases h1 : (strip raw).isEmpty with
    | true =>
      rw [parseAux_cons_blank [] d raw rest h1, parseAux_cons_blank [] d' raw rest h1, ih d d']
    | false =>
    cases h2 : isNoise (strip raw) with
    | true =>
      rw [parseAux_cons_noise [] d raw rest h1 h2, parseAux_cons_noise [] d' raw rest h1 h2, ih d d']
    | false =>
    cases h3 : isNameLine (strip raw) with
    | true =>
      rw [parseAux_cons_name [] d raw rest h1 h2 h3, parseAux_cons_name [] d' raw rest h1 h2 h3]
      simp
    | false =>
      rw [parseAux_cons_desc [] d raw rest h1 h2 h3, parseAux_cons_desc [] d' raw rest h1 h2 h3,
        ih (d ++ ' ' :: strip raw) (d' ++ ' ' :: strip raw)]

/-- Any block of lines containing no name line is discarded when there is
no pending item: the output is as if the block were absent. -/
theorem parseAux_drop_nameless : ∀ (pre : List Str),
    (∀ raw ∈ pre, isEffName raw = false) →
    ∀ (d : Str) (rest : List Str), parseAux [] d (pre ++ rest) = parseAux [] d rest := by
  intro pre
  induction pre with
  | nil => intro _ d rest; rfl
  | cons p pre ih =>
    intro hp d rest
    have hph : isEffName p = false := hp p (List.mem_cons_self p pre)
    have hpt : ∀ raw ∈ pre, isEffName raw = false :=
      fun raw hr => hp raw (List.mem_cons_of_mem p hr)
    rw [List.cons_append]
    cases h1 : (strip p).isEmpty with
    | true => rw [parseAux_cons_blank [] d p _ h1, ih hpt]
    | false =>
    cases h2 : isNoise (strip p) with
    | true => rw [parseAux_cons_noise [] d p _ h1 h2, ih hpt]
    | false =>
    cases h3 : isNameLine (strip p) with
    | true =>
      exfalso
      rw [isEffName_of_branches p h1 h2 h3] at hph
      exact Bool.true_eq_false.mp hph
    | false =>
      rw [parseAux_cons_desc [] d p _ h1 h2 h3, ih hpt,
        parseAux_desc_irrelevant rest (d ++ ' ' :: strip p) d]

/-! ### Claim theorems -/

/-- C1, counterexample: the P5 input does not yield the two records the
claim states — the first item's description keeps its leading space
because the in-loop finalization does not strip `current_description`. -/
theorem C1_counterexample :
    parse_menu_items "CAESAR SALAD\nCrisp romaine, parmesan, croutons\nwith house dressing\nBEEF BURGER $15\nServed with fries".toList
      ≠ [⟨"CAESAR SALAD".toList, "Crisp romaine, parmesan, croutons with house dressing".toList⟩,
         ⟨"BEEF BURGER".toList, "Served with fries".toList⟩] := by
  decide

/-- C1, amended: when a pending item is finalized because a subsequent
name line is reached, the appended record's description is
`current_description` verbatim (so it keeps its leading space when
non-empty); only the end-of-input flush appends `trim(current_description)`.
The P5 example hence yields `{CAESAR SALAD, " Crisp romaine, parmesan,
croutons with house dressing"}` and `{BEEF BURGER, "Served with fries"}`. -/
theorem C1_description_finalization :
    (∀ (cur desc raw : Str) (rest : List Str),
        (strip raw).isEmpty = false → isNoise (strip raw) = false →
        isNameLine (strip raw) = true → cur.isEmpty = false →
        parseAux cur desc (raw :: rest)
          = ⟨cur, desc⟩ :: parseAux (storedName raw) [] rest)
    ∧ (∀ cur desc : Str, cur.isEmpty = false →
        parseAux cur desc [] = [⟨cur, strip desc⟩])
    ∧ parse_menu_items "CAESAR SALAD\nCrisp romaine, parmesan, croutons\nwith house dressing\nBEEF BURGER $15\nServed with fries".toList
        = [⟨"CAESAR SALAD".toList, " Crisp romaine, parmesan, croutons with house dressing".toList⟩,
           ⟨"BEEF BURGER".toList, "Served with fries".toList⟩] := by
  refine ⟨?_, ?_, by decide⟩
  · intro cur desc raw rest h1 h2 h3 hc
    rw [parseAux_cons_name cur desc raw rest h1 h2 h3, hc]
    simp
  · intro cur desc hc
    rw [parseAux_nil, hc]
    simp

/-- C1, witness for the amended theorem at concrete inputs. -/
theorem C1_description_finalization_witness :
    parseAux "CAESAR SALAD".toList " Crisp romaine".toList ["BEEF BURGER $15".toList]
      = ⟨"CAESAR SALAD".toList, " Crisp romaine".toList⟩
          :: parseAux (storedName "BEEF BURGER $15".toList) [] [] :=
  C1_description_finalization.1 "CAESAR SALAD".toList " Crisp romaine".toList
    "BEEF BURGER $15".toList [] (by decide) (by decide) (by decide) (by decide)

/-- C2: `parse_menu_items` is a total function of its input — for every
string it returns a list of items — and the empty string yields the empty
list. -/
theorem C2_totality :
    (∀ s : Str, ∃ items : List MenuItem, parse_menu_items s = items)
    ∧ parse_menu_items "".toList = [] :=
  ⟨fun s => ⟨parse_menu_items s, rfl⟩, by decide⟩

/-- C3: inserting a line caught by the noise filter (a pure-price line or a
line whose trimmed length is under 3) at any line position leaves the
output unchanged, and a line satisfying both the noise filter and the
name-line heuristics is skipped as noise (producing no item and leaving
the loop state intact); `parse_menu_items` is this pass over `splitNl`. -/
theorem C3_noise_invariance :
    (∀ (l : Str) (pre post : List Str),
        isNoise (strip l) = true →
        parseMenuLines (pre ++ l :: post) = parseMenuLines (pre ++ post))
    ∧ (∀ (raw cur desc : Str) (rest : List Str),
        isNoise (strip raw) = true → isNameLine (strip raw) = true →
        parseAux cur desc (raw :: rest) = parseAux cur desc rest)
    ∧ (∀ t : Str, parse_menu_items t = parseMenuLines (splitNl t)) := by
  refine ⟨?_, ?_, fun t => rfl⟩
  · intro l pre post h
    exact parseAux_insert_skip l (Or.inl h) pre post [] []
  · intro raw cur desc rest h _
    exact parseAux_skip cur desc raw rest h

/-- C3, witness: inserting the pure-price line `"$12.99"` (which also
matches the name heuristics) between two lines changes nothing. -/
theorem C3_noise_invariance_witness :
    parseMenuLines ["CAESAR SALAD".toList, "$12.99".toList, "Fresh greens tossed daily".toList]
        = parseMenuLines ["CAESAR SALAD".toList, "Fresh greens tossed daily".toList]
    ∧ parseAux [] [] ["$12.99".toList] = parseAux [] [] [] :=
  ⟨C3_noise_invariance.1 "$12.99".toList ["CAESAR SALAD".toList]
      ["Fresh greens tossed daily".toList] (by decide),
   C3_noise_invariance.2.1 "$12.99".toList [] [] [] (by decide) (by decide)⟩

/-- C4: on a name line the stored name is the line with every `$<number>`
substring removed and the remainder trimmed, and the single name line
`"GRILLED SALMON $24"` yields one item named `"GRILLED SALMON"`. -/
theorem C4_price_stripping :
    (∀ (cur desc raw : Str) (rest : List Str),
        (strip raw).isEmpty = false → isNoise (strip raw) = false →
        isNameLine (strip raw) = true →
        parseAux cur desc (raw :: rest)
          = (if cur.isEmpty then [] else [⟨cur, desc⟩])
              ++ parseAux (strip (stripPrice (strip raw))) [] rest)
    ∧ parse_menu_items "GRILLED SALMON $24".toList
        = [⟨"GRILLED SALMON".toList, []⟩] := by
  refine ⟨?_, by decide⟩
  intro cur desc raw rest h1 h2 h3
  exact parseAux_cons_name cur desc raw rest h1 h2 h3

/-- C4, witness at the claim's own example line. -/
theorem C4_price_stripping_witness :
    parseAux [] [] ["GRILLED SALMON $24".toList]
      = (if ([] : Str).isEmpty then [] else [⟨[], []⟩])
          ++ parseAux (strip (stripPrice (strip "GRILLED SALMON $24".toList))) [] [] :=
  C4_price_stripping.1 [] [] "GRILLED SALMON $24".toList []
    (by decide) (by decide) (by decide)

/-- C5: order preservation — the names of the returned items are exactly
the stored names of the input's name lines, in the order those lines occur
in the text. -/
theorem C5_order_preservation (t : Str) :
    (parse_menu_items t).map MenuItem.name
      = ((splitNl t).filter isEffName).map storedName := by
  show (parseAux [] [] (splitNl t)).map MenuItem.name = _
  rw [parseAux_map_name]
  simp

/-- C6: a block of lines with no name line, placed before the rest of the
input, is discarded entirely (its description-like text reaches no item),
and an input with no name line at all yields the empty sequence. -/
theorem C6_dangling_discarded :
    (∀ (pre rest : List Str),
        (∀ raw ∈ pre, isEffName raw = false) →
        parseMenuLines (pre ++ rest) = parseMenuLines rest)
    ∧ (∀ t : Str, (∀ raw ∈ splitNl t, isEffName raw = false) →
        parse_menu_items t = []) := by
  constructor
  · intro pre rest hp
    exact parseAux_drop_nameless pre hp [] rest
  · intro t hp
    show parseAux [] [] (splitNl t) = []
    have h := parseAux_drop_nameless (splitNl t) hp [] []
    rw [List.append_nil] at h
    rw [h]
    rfl

/-- C6, witness: a lowercase description line before the first name line is
dropped, and an all-lowercase text yields no items. -/
theorem C6_dangling_discarded_witness :
    parseMenuLines ["garden fresh produce".toList, "CAESAR SALAD".toList]
        = parseMenuLines ["CAESAR SALAD".toList]
    ∧ parse_menu_items "some plain lowercase text about food".toList = [] :=
  ⟨C6_dangling_discarded.1 ["garden fresh produce".toList] ["CAESAR SALAD".toList] (by decide),
   C6_dangling_discarded.2 "some plain lowercase text about food".toList (by decide)⟩

/-- C7: every item returned by `parse_menu_items` has a name that is
non-empty after trimming — an item is only appended while the pending
`current_item` is non-empty, and stored names never trim to empty. -/
theorem C7_nonempty_names (t : Str) (item : MenuItem)
    (h : item ∈ parse_menu_items t) : strip item.name ≠ [] := by
  have hg := parseAux_names_good (splitNl t) [] [] item rfl h
  rw [hg.2]
  exact hg.1

/-- C7, witness at a one-item input. -/
theorem C7_nonempty_names_witness :
    (⟨"GRILLED SALMON".toList, []⟩ : MenuItem)
        ∈ parse_menu_items "GRILLED SALMON $24".toList
    ∧ strip "GRILLED SALMON".toList ≠ [] :=
  ⟨by decide,
   C7_nonempty_names "GRILLED SALMON $24".toList ⟨"GRILLED SALMON".toList, []⟩ (by decide)⟩

/-- C8: the attempt fails with `GenerationError` exactly when the external
generation call yields no usable result, with `DownloadError` exactly when
the generated resource cannot be fetched/decoded; any such failure is
caught at the boundary of `generate_food_image` (which then returns
`none`, never an uncaught fault); and each item of the bulk loop is
processed independently of its siblings' outcomes. -/
theorem C8_error_handling :
    (∀ (g d : Str → Option Str) (dish desc : Str),
        generateAttempt g d dish desc = .error .GenerationError
          ↔ g (buildPrompt dish desc) = none)
    ∧ (∀ (g d : Str → Option Str) (dish desc : Str),
        generateAttempt g d dish desc = .error .DownloadError
          ↔ ∃ url, g (buildPrompt dish desc) = some url ∧ d url = none)
    ∧ (∀ (g d : Str → Option Str) (dish desc : Str) (e : GenFailure),
        generateAttempt g d dish desc = .error e →
        generate_food_image true g d dish desc = none)
    ∧ (∀ (c : Bool) (g d : Str → Option Str) (items : List MenuItem) (i : Nat),
        (generateAllImages c g d items)[i]?
          = (items[i]?).map fun item =>
              generate_food_image c g d item.name item.description) := by
  refine ⟨?_, ?_, ?_, ?_⟩
  · intro g d dish desc
    unfold generateAttempt
    cases hg : g (buildPrompt dish desc) with
    | none => simp
    | some url =>
      cases hd : d url with
      | none => simp [hd]
      | some img => simp [hd]
  · intro g d dish desc
    unfold generateAttempt
    cases hg : g (buildPrompt dish desc) with
    | none => simp
    | some url =>
      cases hd : d url with
      | none => simp [hd]
      | some img => simp [hd]
  · intro g d dish desc e he
    unfold generate_food_image
    rw [he]
    rfl
  · intro c g d items i
    unfold generateAllImages
    rw [List.getElem?_map]

/-- C8, witness: a failing generation call is converted to `none` by
`generate_food_image`. -/
theorem C8_error_handling_witness :
    generate_food_image true (fun _ => none) (fun _ => none) "BEEF BURGER".toList [] = none :=
  C8_error_handling.2.2.1 (fun _ => none) (fun _ => none) "BEEF BURGER".toList []
    .GenerationError rfl

/-- C9: the prompt is the fixed photo prefix, the dish name, the first 100
characters of the description preceded by a comma when the description is
non-empty, and the fixed style suffix. -/
theorem C9_prompt_construction (dish_name description : Str) :
    buildPrompt dish_name description
      = "A high-quality, appetizing photo of ".toList ++ dish_name
          ++ (if description.isEmpty then []
              else ", ".toList ++ description.take 100)
          ++ ", professional food photography, well-lit, restaurant quality".toList := by
  unfold buildPrompt
  cases h : description.isEmpty <;> simp [h, List.append_assoc]

/-- C10: the stored name deletes every maximal `'$'`-digits-or-dots run and
trims only the outer whitespace — `"$15.50"` disappears entirely, and the
name line `"FISH $5 SPECIAL"` yields the name `"FISH  SPECIAL"` with a
doubled interior space. -/
theorem C10_price_regex_details :
    stripPrice "$15.50".toList = []
    ∧ parse_menu_items "STEAK $15.50".toList = [⟨"STEAK".toList, []⟩]
    ∧ parse_menu_items "FISH $5 SPECIAL".toList = [⟨"FISH  SPECIAL".toList, []⟩]
    ∧ storedName "FISH $5 SPECIAL".toList = "FISH  SPECIAL".toList
    ∧ strip "  FISH  SPECIAL ".toList = "FISH  SPECIAL".toList := by
  refine ⟨by decide, by decide, by decide, by decide, by decide⟩
